import Mathlib

/-!
Shallow embedding of `src/call_logs_reader.py` (`fetch_call_logs`) from the
Telephonic-RAG-Agent-Log-Viewer repository, together with theorems settling
the specification claims about it.

Modelling conventions:
* Python `datetime` objects are `PyDT`: naive calendar components plus an
  optional UTC offset in seconds (`none` = naive, `some o` = aware).
* `datetime.replace(tzinfo=IST_TIMEZONE)` where
  `IST_TIMEZONE = pytz.timezone('Asia/Kolkata')` attaches the pytz zone's
  *default* (first transition) offset, which for Asia/Kolkata is the LMT
  entry +5:53 (pytz rounds tzdata's +5:53:28 to the whole minute), NOT the
  modern IST offset +5:30.  This is the documented pytz behaviour: a
  `DstTzInfo` used directly as a `tzinfo` argument (instead of via
  `localize`) reports its first transition info.  We model it as the
  constant `IST_TIMEZONE_utcoffset = 21180` seconds.
* The Azure blob store is a `List Blob`: each blob has a `name` and an
  `Option LogData` content, where `none` models any failure of
  `download_blob`/`readall`/`json.loads` for that object (the per-blob
  `try` absorbs the exception and the loop continues).
* A successfully JSON-decoded record (`LogData`) keeps the field the code
  reads (`call_timestamps.start`, as the outcome of
  `datetime.fromisoformat(x['call_timestamps']['start'])`), an opaque
  `payload` standing for every other field, and an optional `blob_name`
  entry (the code overwrites/creates this key).
* `list.sort(key=..., reverse=True)` is Python's stable descending sort;
  key computation raises (KeyError/ValueError/TypeError) if a surviving
  record's `call_timestamps.start` is missing or unparseable, and the
  comparisons raise TypeError when aware and naive datetimes are mixed
  (timsort's run detection compares every adjacent pair, so a mixed list
  always raises).  Since the whole body sits in a `try` that re-raises,
  any such error escapes `fetch_call_logs`.  We model raising as
  `Except.error ()`.  Because a stable sort's output is uniquely
  determined by the key order and the input order, we realise it with a
  stable insertion sort `sortDesc`.
-/

/-- Calendar components of a Python `datetime` (naive part). -/
structure NaiveDT where
  year : Nat
  month : Nat
  day : Nat
  hour : Nat
  minute : Nat
  second : Nat
  microsecond : Nat
deriving DecidableEq, Repr

/-- Gregorian leap-year test (as in Python's `calendar.isleap`). -/
def isLeapYear (y : Nat) : Bool :=
  y % 4 == 0 && (y % 100 != 0 || y % 400 == 0)

/-- Days in a month, as validated by the `datetime` constructor. -/
def daysInMonth (y m : Nat) : Nat :=
  if m = 2 then (if isLeapYear y then 29 else 28)
  else if m = 4 ∨ m = 6 ∨ m = 9 ∨ m = 11 then 30
  else 31

/-- Days in the months strictly before month `m` of year `y`. -/
def daysBeforeMonth (y m : Nat) : Nat :=
  (List.range (m - 1)).foldl (fun acc i => acc + daysInMonth y (i + 1)) 0

/-- Proleptic-Gregorian ordinal of a date (Python's `date.toordinal`:
`0001-01-01` is day 1). -/
def toOrdinal (y m d : Nat) : Nat :=
  (y - 1) * 365 + (y - 1) / 4 - (y - 1) / 100 + (y - 1) / 400
    + daysBeforeMonth y m + d

/-- Linearisation of naive components into microseconds; two naive Python
datetimes compare exactly as their `naiveKey`s do. -/
def naiveKey (t : NaiveDT) : Nat :=
  ((toOrdinal t.year t.month t.day) * 86400
    + t.hour * 3600 + t.minute * 60 + t.second) * 1000000 + t.microsecond

/-- Python `datetime`: naive components plus optional UTC offset in
seconds (`none` = naive datetime, `some o` = aware with `utcoffset` `o`). -/
structure PyDT where
  dt : NaiveDT
  tz : Option Int
deriving DecidableEq, Repr

/-- Offset (in seconds) that `datetime.replace(tzinfo=IST_TIMEZONE)`
attaches in the source, `IST_TIMEZONE = pytz.timezone('Asia/Kolkata')`:
the pytz zone's default (first transition) info, i.e. Kolkata local mean
time +5:53 (tzdata's +5:53:28 rounded by pytz to the minute), not the
modern IST offset +5:30. -/
def IST_TIMEZONE_utcoffset : Int := 21180

/-- Instant key in microseconds: aware datetimes compare by naive key
minus offset (UTC instant), naive datetimes by naive key.  Python only
ever compares aware with aware or naive with naive (mixing raises); for
each uniform kind this key gives exactly Python's ordering and equality. -/
def instantKey (p : PyDT) : Int :=
  (naiveKey p.dt : Int) - 1000000 * (p.tz.getD 0)

/-- Numeric value of a decimal digit, `none` for non-digits. -/
def digitVal (c : Char) : Option Nat :=
  if c.isDigit then some (c.toNat - 48) else none

/-- Greedy 1-or-2-digit numeral, as the `_strptime` regexes match
two-digit fields (`%m`, `%d`, `%H`, `%M`, `%S`). -/
def parse2Digits : List Char → Option (Nat × List Char)
  | [] => none
  | c :: rest =>
    match digitVal c with
    | none => none
    | some v1 =>
      match rest with
      | c2 :: rest2 =>
        match digitVal c2 with
        | none => some (v1, rest)
        | some v2 => some (v1 * 10 + v2, rest2)
      | [] => some (v1, [])

/-- Exactly four digits, as `%Y` requires in CPython's `_strptime`. -/
def parse4Digits : List Char → Option (Nat × List Char)
  | a :: b :: c :: d :: rest =>
    match digitVal a, digitVal b, digitVal c, digitVal d with
    | some va, some vb, some vc, some vd =>
      some (((va * 10 + vb) * 10 + vc) * 10 + vd, rest)
    | _, _, _, _ => none
  | _ => none

/-- Expect one specific literal character. -/
def expectChar (c : Char) : List Char → Option (List Char)
  | x :: rest => if x = c then some rest else none
  | [] => none

/-- One-or-more whitespace characters (a whitespace run in a `strptime`
format string matches the regex `\s+`). -/
def skipWs1 : List Char → Option (List Char)
  | c :: rest =>
    if c.isWhitespace then
      some (skipWsMore rest)
    else none
  | [] => none
where
  skipWsMore : List Char → List Char
  | c :: rest => if c.isWhitespace then skipWsMore rest else c :: rest
  | [] => []

/-- Day-of-month field: the `%d` regex also admits a space-padded single
digit (` [1-9]`). -/
def parseDayField : List Char → Option (Nat × List Char)
  | ' ' :: c :: rest =>
    match digitVal c with
    | some v => if 1 ≤ v then some (v, rest) else none
    | none => none
  | cs => parse2Digits cs

/-- Model of `datetime.strptime(s, "%Y-%m-%d %H_%M_%S")`: the field
regexes of `_strptime` combined with the range checks of the `datetime`
constructor (month 1-12, day valid for the month, hour ≤ 23,
minute ≤ 59, second ≤ 59 — `%S` would also match 60/61 but the
constructor then raises, so the call fails either way), requiring the
whole string to be consumed. -/
def strptime_YmdHMS (s : List Char) : Option NaiveDT := do
  let (y, s) ← parse4Digits s
  let s ← expectChar '-' s
  let (m, s) ← parse2Digits s
  let s ← expectChar '-' s
  let (d, s) ← parseDayField s
  let s ← skipWs1 s
  let (hh, s) ← parse2Digits s
  let s ← expectChar '_' s
  let (mm, s) ← parse2Digits s
  let s ← expectChar '_' s
  let (ss, s) ← parse2Digits s
  if s = [] ∧ 1 ≤ y ∧ 1 ≤ m ∧ m ≤ 12 ∧ 1 ≤ d ∧ d ≤ daysInMonth y m
      ∧ hh ≤ 23 ∧ mm ≤ 59 ∧ ss ≤ 59 then
    some ⟨y, m, d, hh, mm, ss, 0⟩
  else none

/-- Python's `str.split(sep)` for a single-character separator (keeps
empty fields; `"".split(sep) == [""]`). -/
def splitOnChar (sep : Char) : List Char → List (List Char)
  | [] => [[]]
  | c :: rest =>
    let r := splitOnChar sep rest
    if c = sep then [] :: r
    else
      match r with
      | t :: ts => (c :: t) :: ts
      | [] => [[c]]

/-- Python's `sep.join(parts)` for a single-character separator. -/
def joinChar (sep : Char) : List (List Char) → List Char
  | [] => []
  | [t] => t
  | t :: ts => t ++ sep :: joinChar sep ts

/-- Lines 62-74 of the source: split the blob name on `/`, require
exactly two segments, keep the first three `_`-separated tokens of the
second segment, and `strptime` the result against `"%Y-%m-%d %H_%M_%S"`.
`none` covers both the silent `len(path_parts) != 2` skip and a
`strptime` exception (both make the loop skip the blob). -/
def parseBlobDatetime (name : String) : Option NaiveDT :=
  match splitOnChar '/' name.toList with
  | [dateStr, rest] =>
    let timeStr := joinChar '_' ((splitOnChar '_' rest).take 3)
    strptime_YmdHMS (dateStr ++ ' ' :: timeStr)
  | _ => none

/-- Outcome of `datetime.fromisoformat(x['call_timestamps']['start'])` on a
JSON-decoded record: the key chain may be absent (`KeyError`), present but
not an ISO-8601 instant (`ValueError`/`TypeError`), or parse to a datetime
(aware when the string carries an offset, naive otherwise). -/
inductive StartField where
  | missing : StartField
  | malformed : StartField
  | value : PyDT → StartField
deriving DecidableEq, Repr

/-- A JSON-decoded call-log record: the one field the code reads
(`call_timestamps.start`), an opaque `payload` standing for all other
content, and the optional `blob_name` key (absent in stored content
unless the JSON happened to carry one; the code overwrites it). -/
structure LogData where
  callStart : StartField
  payload : Nat
  blob_name : Option String
deriving DecidableEq, Repr

/-- Line 88 of the source: `log_data['blob_name'] = blob.name`. -/
def setBlobName (d : LogData) (n : String) : LogData :=
  { d with blob_name := some n }

/-- One enumerated blob: its name and the outcome of
`download_blob().readall()` + `json.loads` (`none` = that step raises,
which the per-blob `try` absorbs). -/
structure Blob where
  name : String
  content : Option LogData
deriving DecidableEq, Repr

/-- Lines 44-47: a naive bound gets
`replace(tzinfo=IST_TIMEZONE)`; an aware bound is kept as is. -/
def ensureAware (p : PyDT) : PyDT :=
  if p.tz.isNone then { p with tz := some IST_TIMEZONE_utcoffset } else p

/-- Line 51: `end_date.replace(hour=23, minute=59, second=59,
microsecond=999999)` — date and tzinfo kept. -/
def endOfDay (p : PyDT) : PyDT :=
  { p with dt := { p.dt with
                    hour := 23
                    minute := 59
                    second := 59
                    microsecond := 999999 } }

/-- Lines 44-45 applied to an optional start bound. -/
def normalizeStart (sd : Option PyDT) : Option PyDT :=
  sd.map ensureAware

/-- Lines 46-51 applied to an optional end bound: make aware, then widen
to the end of its calendar day. -/
def normalizeEnd (ed : Option PyDT) : Option PyDT :=
  ed.map (fun p => endOfDay (ensureAware p))

/-- Lines 77-80: `continue` unless
`not (start_date and blob_datetime < start_date)` and
`not (end_date and blob_datetime > end_date)`.  All datetimes compared
here are aware (the bounds are normalized, the blob datetime carries
`IST_TIMEZONE`), so Python compares UTC instants, i.e. `instantKey`s. -/
def coarseIncluded (s e : Option PyDT) (bdt : PyDT) : Bool :=
  (match s with
   | some sd => !(instantKey bdt < instantKey sd)
   | none => true) &&
  (match e with
   | some ed => !(instantKey bdt > instantKey ed)
   | none => true)

/-- Lines 59-95, one loop iteration, given the already-normalized bounds:
decode the naming-convention timestamp (`none` → skip), apply the coarse
filter (fail → skip), fetch and decode the content (`none` → the
exception is logged and the blob skipped), attach the blob name.
`some r` means `r` is appended to `call_logs`. -/
def processBlob (s e : Option PyDT) (b : Blob) : Option LogData :=
  match parseBlobDatetime b.name with
  | none => none
  | some t =>
    if coarseIncluded s e ⟨t, some IST_TIMEZONE_utcoffset⟩ then
      match b.content with
      | some d => some (setBlobName d b.name)
      | none => none
    else none

/-- Sort key of a surviving record, i.e.
`datetime.fromisoformat(x['call_timestamps']['start'])`; `none` means the
key computation raises. -/
def sortKeyOpt (d : LogData) : Option PyDT :=
  match d.callStart with
  | .value p => some p
  | _ => none

/-- Numeric stand-in for the sort key (meaningful only when all keys in a
list are uniformly aware or uniformly naive, which is exactly when Python
does not raise). -/
def recKey (d : LogData) : Int :=
  match d.callStart with
  | .value p => instantKey p
  | _ => 0

/-- Record whose key is a naive datetime. -/
def keyIsNaive (d : LogData) : Bool :=
  match d.callStart with
  | .value p => p.tz.isNone
  | _ => false

/-- Record whose key is an aware datetime. -/
def keyIsAware (d : LogData) : Bool :=
  match d.callStart with
  | .value p => p.tz.isSome
  | _ => false

/-- Stable descending insertion: `x` goes after every element with a
strictly larger key and before the first element with a key ≤ its own
(so among equal keys the earlier-inserted element, which is later in the
original list, stays behind `x`). -/
def insertDesc (key : LogData → Int) (x : LogData) :
    List LogData → List LogData
  | [] => [x]
  | y :: ys =>
    if key x < key y then y :: insertDesc key x ys
    else x :: y :: ys

/-- Stable descending sort by a key, the unique output of Python's
`list.sort(key=..., reverse=True)` on a list whose keys all compare. -/
def sortDesc (key : LogData → Int) : List LogData → List LogData
  | [] => []
  | x :: xs => insertDesc key x (sortDesc key xs)

/-- Lines 97-101: `call_logs.sort(key=..., reverse=True)`.  The key
function raises if any surviving record lacks a parseable
`call_timestamps.start`; with all keys computed, timsort compares every
adjacent pair while detecting runs, so a mix of aware and naive keys
raises `TypeError`.  Either error escapes the function (the outer `try`
re-raises), modelled as `Except.error ()`. -/
def sortCallLogs (logs : List LogData) : Except Unit (List LogData) :=
  if logs.all (fun d => (sortKeyOpt d).isSome) then
    if (logs.any keyIsNaive) && (logs.any keyIsAware) then .error ()
    else .ok (sortDesc recKey logs)
  else .error ()

/-- Lines 28-108: `fetch_call_logs(start_date, end_date)` over a store
whose enumeration (`container_client.list_blobs()`) succeeded and yielded
`store` in order.  Normalize the bounds, process each blob (per-blob
failures skip that blob only), sort the survivors by content timestamp
descending.  `Except.error ()` is the call raising. -/
def fetch_call_logs (store : List Blob) (start_date end_date : Option PyDT) :
    Except Unit (List LogData) :=
  sortCallLogs (store.filterMap
    (processBlob (normalizeStart start_date) (normalizeEnd end_date)))

/-- Modelled from the spec (section 8, testable property 3, and section
4.1 input normalisation): the window-inclusion condition in the spec's
words — `t` is included only if (start is unset or t ≥ start) and (end is
unset or t ≤ end-of-day of end), a bound supplied without a zone being
read in the reference zone and both bounds inclusive.  Compared against
the code-derived `coarseIncluded`. -/
def specWindowIncluded (start_date end_date : Option PyDT) (t : PyDT) : Bool :=
  (match start_date with
   | none => true
   | some sd => decide (instantKey (ensureAware sd) ≤ instantKey t)) &&
  (match end_date with
   | none => true
   | some ed => decide (instantKey t ≤ instantKey (endOfDay (ensureAware ed))))

/-- Modelled from the spec (glossary "Reference zone"): the calendar
instant of naive components read in India Standard Time, UTC+05:30
(19800 seconds).  Compared against the instant the code actually builds
(`IST_TIMEZONE_utcoffset`). -/
def istSpecInstant (t : NaiveDT) : Int :=
  (naiveKey t : Int) - 1000000 * 19800

/-- Diagnostic lines emitted through `logger` during one call, reduced to
their identity (the code never reads them back). -/
inductive LogEvent where
  | debugFetching (s e : Option PyDT)
  | debugLoaded (name : String)
  | errorBlob (name : String)
  | infoCount (n : Nat)
  | errorFetch
deriving DecidableEq, Repr

/-- Log lines of one loop iteration (bounds already normalized): a name
without exactly two segments or a coarse-filter miss `continue`s
silently; a `strptime` or download/decode exception hits line 94's
`logger.error`; a loaded blob hits line 91's `logger.debug`. -/
def blobEvents (s e : Option PyDT) (b : Blob) : List LogEvent :=
  match splitOnChar '/' b.name.toList with
  | [dateStr, rest] =>
    match strptime_YmdHMS
        (dateStr ++ ' ' :: joinChar '_' ((splitOnChar '_' rest).take 3)) with
    | none => [.errorBlob b.name]
    | some t =>
      if coarseIncluded s e ⟨t, some IST_TIMEZONE_utcoffset⟩ then
        match b.content with
        | some _ => [.debugLoaded b.name]
        | none => [.errorBlob b.name]
      else []
  | _ => []

/-- `fetch_call_logs` with the process's only per-call side effect — the
append-only diagnostic log — made explicit: the call reads none of the
previous log state, so it is a pure function of the store and the
window. -/
def fetchWithLog (store : List Blob) (start_date end_date : Option PyDT)
    (logState : List LogEvent) :
    Except Unit (List LogData) × List LogEvent :=
  let ns := normalizeStart start_date
  let nd := normalizeEnd end_date
  let res := sortCallLogs (store.filterMap (processBlob ns nd))
  (res,
    logState ++ LogEvent.debugFetching ns nd ::
      (store.flatMap (blobEvents ns nd) ++
        match res with
        | .ok l => [LogEvent.infoCount l.length]
        | .error _ => [LogEvent.errorFetch]))

/-- Content start instant `2024-01-01T10:00:05+05:30` (spec section 8
scenario). -/
def sampleStart1 : PyDT := ⟨⟨2024, 1, 1, 10, 0, 5, 0⟩, some 19800⟩

/-- Content start instant `2024-01-02T11:30:02+05:30` (spec section 8
scenario). -/
def sampleStart2 : PyDT := ⟨⟨2024, 1, 2, 11, 30, 2, 0⟩, some 19800⟩

/-- A well-formed decoded record with start `sampleStart1`. -/
def sampleRec1 : LogData := ⟨.value sampleStart1, 1, none⟩

/-- A well-formed decoded record with start `sampleStart2`. -/
def sampleRec2 : LogData := ⟨.value sampleStart2, 2, none⟩

/-- A record with the same content start as `sampleRec1` but different
payload, to exercise ties. -/
def sampleRec3 : LogData := ⟨.value sampleStart1, 3, none⟩

/-- Blob named `2024-01-01/10_00_00_+15550000001.json` holding
`sampleRec1`. -/
def sampleBlob1 : Blob := ⟨"2024-01-01/10_00_00_+15550000001.json", some sampleRec1⟩

/-- Blob named `2024-01-02/11_30_00_+15550000002.json` holding
`sampleRec2`. -/
def sampleBlob2 : Blob := ⟨"2024-01-02/11_30_00_+15550000002.json", some sampleRec2⟩

/-- Blob tying with `sampleBlob1` on the content timestamp. -/
def sampleBlob3 : Blob := ⟨"2024-01-01/09_59_00_+15550000003.json", some sampleRec3⟩

/-- Blob whose content fails to download or JSON-decode. -/
def corruptBlob : Blob := ⟨"2024-01-03/08_00_00_+15550000004.json", none⟩

theorem insertDesc_perm (key : LogData → Int) (x : LogData)
    (l : List LogData) : (insertDesc key x l).Perm (x :: l) := by
  induction l with
  | nil => exact List.Perm.refl _
  | cons y ys ih =>
    unfold insertDesc
    split
    · exact (ih.cons y).trans (List.Perm.swap x y ys)
    · exact List.Perm.refl _

theorem sortDesc_perm (key : LogData → Int) (l : List LogData) :
    (sortDesc key l).Perm l := by
  induction l with
  | nil => exact List.Perm.refl _
  | cons x xs ih => exact (insertDesc_perm key x _).trans (ih.cons x)

theorem insertDesc_pairwise (key : LogData → Int) (x : LogData)
    (l : List LogData) (h : l.Pairwise (fun a b => key b ≤ key a)) :
    (insertDesc key x l).Pairwise (fun a b => key b ≤ key a) := by
  induction l with
  | nil => simp [insertDesc]
  | cons y ys ih =>
    rcases List.pairwise_cons.1 h with ⟨hy, hys⟩
    unfold insertDesc
    split
    · next hxy =>
      refine List.pairwise_cons.2 ⟨?_, ih hys⟩
      intro z hz
      rcases List.mem_cons.1 ((insertDesc_perm key x ys).mem_iff.1 hz) with
        rfl | zin
      · omega
      · exact hy z zin
    · next hxy =>
      refine List.pairwise_cons.2 ⟨?_, h⟩
      intro z hz
      rcases List.mem_cons.1 hz with rfl | zin
      · omega
      · have := hy z zin
        omega

theorem sortDesc_pairwise (key : LogData → Int) (l : List LogData) :
    (sortDesc key l).Pairwise (fun a b => key b ≤ key a) := by
  induction l with
  | nil => simp [sortDesc]
  | cons x xs ih => exact insertDesc_pairwise key x _ ih

theorem filter_insertDesc (key : LogData → Int) (x : LogData)
    (l : List LogData) (k : Int) :
    (insertDesc key x l).filter (fun z => key z == k) =
      if key x == k then x :: l.filter (fun z => key z == k)
      else l.filter (fun z => key z == k) := by
  induction l with
  | nil =>
    by_cases hx : key x = k <;> simp [insertDesc, hx]
  | cons y ys ih =>
    unfold insertDesc
    split
    · next hxy =>
      rw [List.filter_cons, ih, List.filter_cons]
      by_cases hx : key x = k
      · have hy : ¬ (key y = k) := by omega
        simp [hx, hy]
      · by_cases hy : key y = k <;> simp [hx, hy]
    · next hxy =>
      rw [List.filter_cons]

theorem sortDesc_stable (key : LogData → Int) (l : List LogData) (k : Int) :
    (sortDesc key l).filter (fun z => key z == k) =
      l.filter (fun z => key z == k) := by
  induction l with
  | nil => rfl
  | cons x xs ih =>
    rw [sortDesc, filter_insertDesc, ih, List.filter_cons]

theorem processBlob_eq_some {s e : Option PyDT} {b : Blob} {r : LogData} :
    processBlob s e b = some r ↔
      ∃ t d, parseBlobDatetime b.name = some t ∧
        coarseIncluded s e ⟨t, some IST_TIMEZONE_utcoffset⟩ = true ∧
        b.content = some d ∧ r = setBlobName d b.name := by
  constructor
  · intro h
    cases hp : parseBlobDatetime b.name with
    | none => simp [processBlob, hp] at h
    | some t =>
      simp only [processBlob, hp] at h
      by_cases hc : coarseIncluded s e ⟨t, some IST_TIMEZONE_utcoffset⟩ = true
      · rw [if_pos hc] at h
        cases hb : b.content with
        | none => rw [hb] at h; simp at h
        | some d =>
          rw [hb] at h
          exact ⟨t, d, rfl, hc, rfl, (Option.some_inj.1 h).symm⟩
      · rw [if_neg hc] at h
        simp at h
  · rintro ⟨t, d, hp, hc, hb, rfl⟩
    simp [processBlob, hp, hc, hb]

theorem processBlob_none_of_parse {s e : Option PyDT} {b : Blob}
    (h : parseBlobDatetime b.name = none) : processBlob s e b = none := by
  unfold processBlob
  rw [h]

theorem sortCallLogs_eq_ok {logs l : List LogData} :
    sortCallLogs logs = .ok l ↔
      (∀ d ∈ logs, (sortKeyOpt d).isSome) ∧
      ¬((logs.any keyIsNaive) = true ∧ (logs.any keyIsAware) = true) ∧
      l = sortDesc recKey logs := by
  unfold sortCallLogs
  by_cases hall : logs.all (fun d => (sortKeyOpt d).isSome) = true
  · rw [if_pos hall]
    by_cases hmix : (logs.any keyIsNaive) = true ∧ (logs.any keyIsAware) = true
    · rw [if_pos (by rw [Bool.and_eq_true]; exact hmix)]
      constructor
      · intro h; exact absurd h (by simp)
      · intro ⟨_, hnm, _⟩; exact absurd hmix hnm
    · rw [if_neg (by
        intro hb
        rw [Bool.and_eq_true] at hb
        exact hmix hb)]
      simp only [List.all_eq_true] at hall
      constructor
      · intro h
        exact ⟨hall, hmix, (Except.ok.inj h).symm⟩
      · intro ⟨_, _, hl⟩
        rw [hl]
  · rw [if_neg hall]
    constructor
    · intro h; exact absurd h (by simp)
    · intro ⟨h1, _, _⟩
      exact absurd (List.all_eq_true.2 h1) hall

theorem sortCallLogs_error_of_badKey {logs : List LogData} {d : LogData}
    (hd : d ∈ logs) (h : sortKeyOpt d = none) :
    sortCallLogs logs = .error () := by
  unfold sortCallLogs
  rw [if_neg]
  intro hall
  have := List.all_eq_true.1 hall d hd
  rw [h] at this
  exact absurd this (by simp)

theorem sortCallLogs_error_of_mixed {logs : List LogData} {d1 d2 : LogData}
    (h1 : d1 ∈ logs) (h2 : d2 ∈ logs)
    (hn : keyIsNaive d1 = true) (ha : keyIsAware d2 = true) :
    sortCallLogs logs = .error () := by
  unfold sortCallLogs
  by_cases hall : logs.all (fun d => (sortKeyOpt d).isSome) = true
  · rw [if_pos hall, if_pos]
    rw [Bool.and_eq_true]
    exact ⟨List.any_eq_true.2 ⟨d1, h1, hn⟩, List.any_eq_true.2 ⟨d2, h2, ha⟩⟩
  · rw [if_neg hall]

theorem sortDesc_eq_nil_iff (key : LogData → Int) (l : List LogData) :
    sortDesc key l = [] ↔ l = [] := by
  constructor
  · intro h
    have := (sortDesc_perm key l).length_eq
    rw [h] at this
    exact List.length_eq_zero.1 this.symm
  · intro h
    rw [h]
    rfl

theorem processBlob_blob_name {s e : Option PyDT} {b : Blob} {r : LogData}
    (h : processBlob s e b = some r) : r.blob_name = some b.name := by
  rcases processBlob_eq_some.1 h with ⟨t, d, _, _, _, rfl⟩
  rfl

theorem mem_kept_blobNames {s e : Option PyDT} {l : List Blob}
    {x : Option String}
    (hx : x ∈ (l.filterMap (processBlob s e)).map LogData.blob_name) :
    ∃ b ∈ l, x = some b.name := by
  rcases List.mem_map.1 hx with ⟨r, hr, rfl⟩
  rcases List.mem_filterMap.1 hr with ⟨b, hb, hpb⟩
  exact ⟨b, hb, processBlob_blob_name hpb⟩

theorem nodup_kept_blobNames (s e : Option PyDT) (store : List Blob)
    (h : (store.map Blob.name).Nodup) :
    ((store.filterMap (processBlob s e)).map LogData.blob_name).Nodup := by
  induction store with
  | nil => simp
  | cons b bs ih =>
    rw [List.map_cons] at h
    rcases List.nodup_cons.1 h with ⟨hnotin, htl⟩
    cases hpb : processBlob s e b with
    | none =>
      rw [List.filterMap_cons, hpb]
      exact ih htl
    | some r =>
      rw [List.filterMap_cons, hpb, List.map_cons]
      refine List.nodup_cons.2 ⟨?_, ih htl⟩
      intro hin
      rw [processBlob_blob_name hpb] at hin
      rcases mem_kept_blobNames hin with ⟨b', hb', heq⟩
      exact hnotin (Option.some_inj.1 heq ▸ List.mem_map_of_mem Blob.name hb')

theorem not_lt_decide (a b : Int) : (!decide (a < b)) = decide (b ≤ a) := by
  by_cases h : a < b
  · simp [h, show ¬ b ≤ a by omega]
  · simp [h, show b ≤ a by omega]

theorem not_gt_decide (a b : Int) : (!decide (a > b)) = decide (a ≤ b) := by
  by_cases h : a > b
  · simp [h, show ¬ a ≤ b by omega]
  · simp [h, show a ≤ b by omega]

/-- C2: for every pair of optional bounds and every object whose decoded
naming-convention timestamp is `t`, the code's coarse filter decision
equals the spec's window condition — included iff (start unset or
`t ≥ start`) and (end unset or `t ≤` the last instant 23:59:59.999999 of
end's calendar day), both bounds inclusive and a supplied end always
widened to the end of its day; and a blob whose name decodes to `t`
yields a record exactly when that condition holds and its content is
fetchable. -/
theorem C2_window_filter :
    (∀ (s e : Option PyDT) (t : NaiveDT),
      coarseIncluded (normalizeStart s) (normalizeEnd e)
          ⟨t, some IST_TIMEZONE_utcoffset⟩
        = specWindowIncluded s e ⟨t, some IST_TIMEZONE_utcoffset⟩) ∧
    (∀ (s e : Option PyDT) (b : Blob) (t : NaiveDT),
      parseBlobDatetime b.name = some t →
      ((processBlob (normalizeStart s) (normalizeEnd e) b).isSome = true ↔
        (specWindowIncluded s e ⟨t, some IST_TIMEZONE_utcoffset⟩ = true ∧
          b.content.isSome = true))) := by
  have hcmp : ∀ (s e : Option PyDT) (t : NaiveDT),
      coarseIncluded (normalizeStart s) (normalizeEnd e)
          ⟨t, some IST_TIMEZONE_utcoffset⟩
        = specWindowIncluded s e ⟨t, some IST_TIMEZONE_utcoffset⟩ := by
    intro s e t
    cases s with
    | none =>
      cases e with
      | none => rfl
      | some ed =>
        simp [coarseIncluded, specWindowIncluded, normalizeStart,
          normalizeEnd, not_gt_decide, Option.map]
    | some sd =>
      cases e with
      | none =>
        simp [coarseIncluded, specWindowIncluded, normalizeStart,
          normalizeEnd, not_lt_decide, Option.map]
      | some ed =>
        simp [coarseIncluded, specWindowIncluded, normalizeStart,
          normalizeEnd, not_lt_decide, not_gt_decide, Option.map]
  refine ⟨hcmp, ?_⟩
  intro s e b t hpt
  simp only [processBlob, hpt]
  rw [hcmp]
  by_cases hw : specWindowIncluded s e ⟨t, some IST_TIMEZONE_utcoffset⟩ = true
  · rw [if_pos hw]
    cases hb : b.content with
    | none => simp [hw]
    | some d => simp [hw]
  · rw [if_neg hw]
    simp [hw]

/-- C5: for a valid identifier of the naming convention, the decoded
components are exactly the name's date and time fields, but the instant
the code attaches is the pytz `Asia/Kolkata` default (LMT, UTC+5:53)
instant, not the India-Standard-Time (UTC+5:30) instant the spec
prescribes: the code's `datetime.replace(tzinfo=IST_TIMEZONE)` bypasses
`pytz.localize`, a documented pytz misuse, so the decoded timestamp
differs from the reference-zone instant by 1380 seconds. -/
theorem C5_decoded_zone_is_lmt_not_ist :
    parseBlobDatetime "2024-01-01/10_00_00_+15550000001.json"
      = some ⟨2024, 1, 1, 10, 0, 0, 0⟩ ∧
    instantKey ⟨⟨2024, 1, 1, 10, 0, 0, 0⟩, some IST_TIMEZONE_utcoffset⟩
      ≠ istSpecInstant ⟨2024, 1, 1, 10, 0, 0, 0⟩ := by
  exact ⟨by rfl, by decide⟩

/-- C6: an object whose identifier does not decode under the naming
convention (no or several `/` separators, non-numeric or out-of-range
time tokens) is excluded from the result without raising, and the
remaining objects are processed exactly as if it were absent. -/
theorem C6_invalid_name_skipped :
    ∀ (s e : Option PyDT) (l1 l2 : List Blob) (b : Blob),
      parseBlobDatetime b.name = none →
      fetch_call_logs (l1 ++ b :: l2) s e = fetch_call_logs (l1 ++ l2) s e := by
  intro s e l1 l2 b h
  simp only [fetch_call_logs, List.filterMap_append, List.filterMap_cons,
    @processBlob_none_of_parse (normalizeStart s) (normalizeEnd e) b h]

/-- Witness for C6: the store holding a malformed name
(`invalid_name.json`, no `/`) alongside a valid blob returns exactly what
the store without it returns; an hour-25 name also fails to decode. -/
theorem C6_witness :
    parseBlobDatetime "invalid_name.json" = none ∧
    parseBlobDatetime "2024-01-01/25_00_00_a.json" = none ∧
    fetch_call_logs [sampleBlob1, ⟨"invalid_name.json", some sampleRec2⟩]
        none none
      = fetch_call_logs [sampleBlob1] none none := by
  refine ⟨by rfl, by rfl, ?_⟩
  have h := C6_invalid_name_skipped none none [sampleBlob1] []
    ⟨"invalid_name.json", some sampleRec2⟩ (by rfl)
  simpa using h

/-- C8: with the process state (the append-only diagnostic log) made
explicit, the outcome of `fetch_call_logs` depends only on the store
contents and the window: a call's result ignores the prior log state,
and two successive calls with the same window over the unchanged store
return equal results. -/
theorem C8_deterministic :
    ∀ (store : List Blob) (s e : Option PyDT) (st : List LogEvent),
      (fetchWithLog store s e st).1 = fetch_call_logs store s e ∧
      (fetchWithLog store s e (fetchWithLog store s e st).2).1
        = (fetchWithLog store s e st).1 := by
  intro store s e st
  exact ⟨rfl, rfl⟩

theorem sortKeyOpt_isSome_iff {d : LogData} :
    (sortKeyOpt d).isSome = true ↔ ∃ p, d.callStart = .value p := by
  cases hd : d.callStart with
  | missing => simp [sortKeyOpt, hd]
  | malformed => simp [sortKeyOpt, hd]
  | value p => simp [sortKeyOpt, hd]

theorem aware_not_naive {d : LogData} (h : keyIsAware d = true) :
    keyIsNaive d = false := by
  cases hd : d.callStart with
  | missing => simp [keyIsNaive, hd]
  | malformed => simp [keyIsNaive, hd]
  | value p =>
    simp only [keyIsAware, hd] at h
    simp only [keyIsNaive, hd]
    cases htz : p.tz with
    | none => rw [htz] at h; exact absurd h (by simp)
    | some o => simp [htz]

theorem naive_not_aware {d : LogData} (h : keyIsNaive d = true) :
    keyIsAware d = false := by
  cases hd : d.callStart with
  | missing => simp [keyIsAware, hd]
  | malformed => simp [keyIsAware, hd]
  | value p =>
    simp only [keyIsNaive, hd] at h
    simp only [keyIsAware, hd]
    cases htz : p.tz with
    | some o => rw [htz] at h; exact absurd h (by simp)
    | none => simp [htz]

theorem isSome_of_aware {d : LogData} (h : keyIsAware d = true) :
    (sortKeyOpt d).isSome = true := by
  cases hd : d.callStart with
  | missing => simp [keyIsAware, hd] at h
  | malformed => simp [keyIsAware, hd] at h
  | value p => simp [sortKeyOpt, hd]

theorem aware_of_value_tz {d : LogData} {p : PyDT} {o : Int}
    (hc : d.callStart = .value p) (ht : p.tz = some o) :
    keyIsAware d = true := by
  simp [keyIsAware, hc, ht]

theorem fetch_ok_elim {store : List Blob} {s e : Option PyDT}
    {l : List LogData} (h : fetch_call_logs store s e = .ok l) :
    l = sortDesc recKey
        (store.filterMap (processBlob (normalizeStart s) (normalizeEnd e))) ∧
    (∀ d ∈ store.filterMap (processBlob (normalizeStart s) (normalizeEnd e)),
      (sortKeyOpt d).isSome = true) ∧
    ¬(((store.filterMap
          (processBlob (normalizeStart s) (normalizeEnd e))).any keyIsNaive)
          = true ∧
      ((store.filterMap
          (processBlob (normalizeStart s) (normalizeEnd e))).any keyIsAware)
          = true) := by
  unfold fetch_call_logs at h
  rcases sortCallLogs_eq_ok.1 h with ⟨h1, h2, h3⟩
  exact ⟨h3, h1, h2⟩

/-- C3: whenever `fetch_call_logs` returns a result, consecutive records
carry non-increasing content start timestamps (most recent first,
`recKey` being the parsed `call_timestamps.start` instant), and records
with equal content timestamps keep the relative order in which the
enumeration produced them (the sort is stable). -/
theorem C3_descending_stable :
    ∀ (store : List Blob) (s e : Option PyDT) (l : List LogData),
      fetch_call_logs store s e = .ok l →
      l.Pairwise (fun r1 r2 => recKey r2 ≤ recKey r1) ∧
      ∀ k : Int, l.filter (fun r => recKey r == k)
        = (store.filterMap
            (processBlob (normalizeStart s) (normalizeEnd e))).filter
              (fun r => recKey r == k) := by
  intro store s e l h
  rcases fetch_ok_elim h with ⟨hl, -, -⟩
  subst hl
  exact ⟨sortDesc_pairwise recKey _, fun k => sortDesc_stable recKey _ k⟩

/-- Witness for C3: a store with two records tying on the content
timestamp and one strictly later record; the call returns, the result is
descending, and the tied records keep enumeration order. -/
theorem C3_witness :
    fetch_call_logs [sampleBlob1, sampleBlob3, sampleBlob2] none none
      = Except.ok [setBlobName sampleRec2 sampleBlob2.name,
          setBlobName sampleRec1 sampleBlob1.name,
          setBlobName sampleRec3 sampleBlob3.name] ∧
    ([setBlobName sampleRec2 sampleBlob2.name,
      setBlobName sampleRec1 sampleBlob1.name,
      setBlobName sampleRec3 sampleBlob3.name] : List LogData).Pairwise
        (fun r1 r2 => recKey r2 ≤ recKey r1) := by
  have h : fetch_call_logs [sampleBlob1, sampleBlob3, sampleBlob2] none none
      = Except.ok [setBlobName sampleRec2 sampleBlob2.name,
          setBlobName sampleRec1 sampleBlob1.name,
          setBlobName sampleRec3 sampleBlob3.name] := by rfl
  exact ⟨h, (C3_descending_stable _ none none _ h).1⟩

/-- C7: every record in a returned result is the parsed content of some
enumerated blob with only its `blob_name` field set to that blob's name;
`call_timestamps.start` and the rest of the payload are passed through
unchanged. -/
theorem C7_opaque_pass_through :
    ∀ (store : List Blob) (s e : Option PyDT) (l : List LogData),
      fetch_call_logs store s e = .ok l →
      ∀ r ∈ l, ∃ b ∈ store, ∃ d, b.content = some d ∧
        r = setBlobName d b.name ∧ r.callStart = d.callStart ∧
        r.payload = d.payload ∧ r.blob_name = some b.name := by
  intro store s e l h r hr
  rcases fetch_ok_elim h with ⟨hl, -, -⟩
  subst hl
  have hr2 : r ∈ store.filterMap
      (processBlob (normalizeStart s) (normalizeEnd e)) :=
    (sortDesc_perm recKey _).mem_iff.1 hr
  rcases List.mem_filterMap.1 hr2 with ⟨b, hb, hpb⟩
  rcases processBlob_eq_some.1 hpb with ⟨t, d, hp, hc, hcon, rfl⟩
  exact ⟨b, hb, d, hcon, rfl, rfl, rfl, rfl⟩

/-- Witness for C7: in a concrete two-blob store the first returned
record is its source blob's content with only the identifier attached. -/
theorem C7_witness :
    ∃ b ∈ [sampleBlob1, sampleBlob2], ∃ d, b.content = some d ∧
      setBlobName sampleRec2 sampleBlob2.name = setBlobName d b.name ∧
      (setBlobName sampleRec2 sampleBlob2.name).callStart = d.callStart ∧
      (setBlobName sampleRec2 sampleBlob2.name).payload = d.payload ∧
      (setBlobName sampleRec2 sampleBlob2.name).blob_name
        = some b.name := by
  have h : fetch_call_logs [sampleBlob1, sampleBlob2] none none
      = Except.ok [setBlobName sampleRec2 sampleBlob2.name,
          setBlobName sampleRec1 sampleBlob1.name] := by rfl
  exact C7_opaque_pass_through _ none none _ h
    (setBlobName sampleRec2 sampleBlob2.name) (List.mem_cons_self _ _)

/-- C9: when the enumeration yields pairwise-distinct object names, the
identifiers attached to the returned records are pairwise distinct. -/
theorem C9_unique_identifiers :
    ∀ (store : List Blob) (s e : Option PyDT) (l : List LogData),
      (store.map Blob.name).Nodup →
      fetch_call_logs store s e = .ok l →
      (l.map LogData.blob_name).Nodup := by
  intro store s e l hnd h
  rcases fetch_ok_elim h with ⟨hl, -, -⟩
  subst hl
  have hperm := (sortDesc_perm recKey (store.filterMap
    (processBlob (normalizeStart s) (normalizeEnd e)))).map LogData.blob_name
  exact hperm.nodup_iff.2
    (nodup_kept_blobNames (normalizeStart s) (normalizeEnd e) store hnd)

/-- Witness for C9: the two-blob store returns records with distinct
identifiers. -/
theorem C9_witness :
    (([setBlobName sampleRec2 sampleBlob2.name,
       setBlobName sampleRec1 sampleBlob1.name] : List LogData).map
        LogData.blob_name).Nodup := by
  exact C9_unique_identifiers [sampleBlob1, sampleBlob2] none none
    [setBlobName sampleRec2 sampleBlob2.name,
     setBlobName sampleRec1 sampleBlob1.name] (by decide) (by rfl)

/-- C10: whenever `fetch_call_logs` returns, every returned record has a
`call_timestamps.start` that parsed to a datetime and these are mutually
comparable — all timezone-aware or all naive; conversely a surviving
record without a parseable start, or a surviving naive/aware mix, makes
the whole call raise instead of being skipped. -/
theorem C10_result_keys_wellformed :
    (∀ (store : List Blob) (s e : Option PyDT) (l : List LogData),
      fetch_call_logs store s e = .ok l →
      (∀ r ∈ l, ∃ p, r.callStart = .value p) ∧
      ((∀ r ∈ l, keyIsAware r = true) ∨ (∀ r ∈ l, keyIsNaive r = true))) ∧
    (∀ (store : List Blob) (s e : Option PyDT) (r : LogData),
      r ∈ store.filterMap (processBlob (normalizeStart s) (normalizeEnd e)) →
      sortKeyOpt r = none →
      fetch_call_logs store s e = .error ()) ∧
    (∀ (store : List Blob) (s e : Option PyDT) (r1 r2 : LogData),
      r1 ∈ store.filterMap (processBlob (normalizeStart s) (normalizeEnd e)) →
      r2 ∈ store.filterMap (processBlob (normalizeStart s) (normalizeEnd e)) →
      keyIsNaive r1 = true → keyIsAware r2 = true →
      fetch_call_logs store s e = .error ()) := by
  refine ⟨?_, ?_, ?_⟩
  · intro store s e l h
    rcases fetch_ok_elim h with ⟨hl, hkeys, hmix⟩
    have hmem : ∀ r ∈ l, r ∈ store.filterMap
        (processBlob (normalizeStart s) (normalizeEnd e)) := by
      intro r hr
      subst hl
      exact (sortDesc_perm recKey _).mem_iff.1 hr
    refine ⟨fun r hr => sortKeyOpt_isSome_iff.1 (hkeys r (hmem r hr)), ?_⟩
    by_cases hnaive : ((store.filterMap
        (processBlob (normalizeStart s) (normalizeEnd e))).any keyIsNaive)
        = true
    · right
      intro r hr
      by_contra hcon
      have hr2 := hmem r hr
      have haware : keyIsAware r = true := by
        cases hsp : sortKeyOpt r with
        | none =>
          have := hkeys r hr2
          rw [hsp] at this
          exact absurd this (by simp)
        | some p =>
          rcases sortKeyOpt_isSome_iff.1 (by rw [hsp]; rfl) with ⟨q, hq⟩
          cases htz : q.tz with
          | some o => exact aware_of_value_tz hq htz
          | none =>
            exact absurd (by simp [keyIsNaive, hq, htz]) hcon
      exact hmix ⟨hnaive, List.any_eq_true.2 ⟨r, hr2, haware⟩⟩
    · left
      intro r hr
      have hr2 := hmem r hr
      have hnn : keyIsNaive r = false := by
        by_contra hcon
        exact hnaive (List.any_eq_true.2
          ⟨r, hr2, Bool.of_not_eq_false hcon⟩)
      rcases sortKeyOpt_isSome_iff.1 (hkeys r hr2) with ⟨p, hp⟩
      cases htz : p.tz with
      | some o => exact aware_of_value_tz hp htz
      | none =>
        have hcontra : keyIsNaive r = true := by simp [keyIsNaive, hp, htz]
        rw [hcontra] at hnn
        exact absurd hnn (by simp)
  · intro store s e r hr hk
    unfold fetch_call_logs
    exact sortCallLogs_error_of_badKey hr hk
  · intro store s e r1 r2 h1 h2 hn ha
    unfold fetch_call_logs
    exact sortCallLogs_error_of_mixed h1 h2 hn ha

/-- Witness for C10: a surviving record whose content lacks a parseable
`call_timestamps.start` makes the concrete call raise. -/
theorem C10_witness :
    fetch_call_logs
      [⟨"2024-01-04/12_00_00_+15550000005.json",
        some ⟨StartField.missing, 5, none⟩⟩] none none
      = Except.error () := by
  exact C10_result_keys_wellformed.2.1
    [⟨"2024-01-04/12_00_00_+15550000005.json",
      some ⟨StartField.missing, 5, none⟩⟩] none none
    (setBlobName ⟨StartField.missing, 5, none⟩
      "2024-01-04/12_00_00_+15550000005.json")
    (by decide) (by rfl)

theorem no_mix_of_all_aware {logs : List LogData}
    (h : ∀ r ∈ logs, keyIsAware r = true) :
    ¬((logs.any keyIsNaive) = true ∧ (logs.any keyIsAware) = true) := by
  intro hmix
  rcases List.any_eq_true.1 hmix.1 with ⟨d, hd, hdn⟩
  rw [aware_not_naive (h d hd)] at hdn
  exact absurd hdn (by simp)

theorem sortCallLogs_ok_of_all_aware {logs : List LogData}
    (h : ∀ r ∈ logs, keyIsAware r = true) :
    sortCallLogs logs = .ok (sortDesc recKey logs) :=
  sortCallLogs_eq_ok.2
    ⟨fun d hd => isSome_of_aware (h d hd), no_mix_of_all_aware h, rfl⟩

/-- C1 (amended): per-object fault tolerance holds for failures of the
fetch/JSON-decode step — over a store whose objects all pass the coarse
filter, with N objects whose content decodes to a record carrying a
timezone-aware `call_timestamps.start` and M objects whose content fails
to download or decode, the call returns exactly the N well-formed
records (each with its blob name attached) and does not raise.  (As
originally stated the claim is false: a record with *missing fields* is
not skipped — it survives the loop and makes the final sort raise, see
the counterexample.) -/
theorem C1_fault_tolerance :
    ∀ (store : List Blob) (s e : Option PyDT),
      (∀ b ∈ store, ∃ t, parseBlobDatetime b.name = some t ∧
        coarseIncluded (normalizeStart s) (normalizeEnd e)
          ⟨t, some IST_TIMEZONE_utcoffset⟩ = true) →
      (∀ b ∈ store, b.content = none ∨
        ∃ d p o, b.content = some d ∧ d.callStart = .value p ∧
          p.tz = some o) →
      ∃ l, fetch_call_logs store s e = .ok l ∧
        l.Perm (store.filterMap
          (fun b => b.content.map (fun d => setBlobName d b.name))) ∧
        l.length = (store.filterMap
          (fun b => b.content.map (fun d => setBlobName d b.name))).length := by
  intro store s e hpass hcont
  have hkept : store.filterMap
        (processBlob (normalizeStart s) (normalizeEnd e))
      = store.filterMap
          (fun b => b.content.map (fun d => setBlobName d b.name)) := by
    apply List.filterMap_congr
    intro b hb
    rcases hpass b hb with ⟨t, hpt, hct⟩
    simp only [processBlob, hpt]
    rw [if_pos hct]
    cases b.content <;> rfl
  have haware : ∀ r ∈ store.filterMap
      (fun b => b.content.map (fun d => setBlobName d b.name)),
      keyIsAware r = true := by
    intro r hr
    rcases List.mem_filterMap.1 hr with ⟨b, hb, hmb⟩
    rcases hcont b hb with hnone | ⟨d, p, o, hd, hcs, htz⟩
    · rw [hnone] at hmb
      exact absurd hmb (by simp)
    · rw [hd] at hmb
      have hr2 : setBlobName d b.name = r := Option.some_inj.1 hmb
      rw [← hr2]
      exact aware_of_value_tz (d := setBlobName d b.name) hcs htz
  have hok : sortCallLogs (store.filterMap
      (processBlob (normalizeStart s) (normalizeEnd e)))
      = .ok (sortDesc recKey (store.filterMap
          (processBlob (normalizeStart s) (normalizeEnd e)))) := by
    apply sortCallLogs_ok_of_all_aware
    intro r hr
    rw [hkept] at hr
    exact haware r hr
  refine ⟨sortDesc recKey (store.filterMap
      (processBlob (normalizeStart s) (normalizeEnd e))), ?_, ?_, ?_⟩
  · unfold fetch_call_logs
    exact hok
  · rw [hkept]
    exact sortDesc_perm recKey _
  · rw [hkept]
    exact (sortDesc_perm recKey _).length_eq

/-- Counterexample to C1 as stated: a store with one well-formed object
and one object whose content decodes but *misses* the
`call_timestamps.start` field.  The claim says the faulty object is
skipped and the one well-formed record is returned; the code instead
raises out of the whole call (the missing field only surfaces in the
sort-key computation, outside the per-object try). -/
theorem C1_counterexample :
    fetch_call_logs
      [sampleBlob1,
       ⟨"2024-01-02/11_30_00_+15550000006.json",
        some ⟨StartField.missing, 6, none⟩⟩] none none
      = Except.error () := by rfl

/-- Witness for C1 (amended): two well-formed blobs and one blob with
undownloadable/undecodable content yield exactly the two well-formed
records. -/
theorem C1_witness :
    ∃ l, fetch_call_logs [sampleBlob1, corruptBlob, sampleBlob2] none none
        = Except.ok l ∧
      l.Perm [setBlobName sampleRec1 sampleBlob1.name,
              setBlobName sampleRec2 sampleBlob2.name] ∧
      l.length = 2 := by
  have hmain := C1_fault_tolerance [sampleBlob1, corruptBlob, sampleBlob2]
    none none
    (by
      intro b hb
      fin_cases hb
      · exact ⟨⟨2024, 1, 1, 10, 0, 0, 0⟩, by rfl, by rfl⟩
      · exact ⟨⟨2024, 1, 3, 8, 0, 0, 0⟩, by rfl, by rfl⟩
      · exact ⟨⟨2024, 1, 2, 11, 30, 0, 0⟩, by rfl, by rfl⟩)
    (by
      intro b hb
      fin_cases hb
      · exact Or.inr ⟨sampleRec1, sampleStart1, 19800, rfl, rfl, rfl⟩
      · exact Or.inl rfl
      · exact Or.inr ⟨sampleRec2, sampleStart2, 19800, rfl, rfl, rfl⟩)
  have heq : ([sampleBlob1, corruptBlob, sampleBlob2].filterMap
      (fun b => b.content.map (fun d => setBlobName d b.name)))
      = [setBlobName sampleRec1 sampleBlob1.name,
         setBlobName sampleRec2 sampleBlob2.name] := by rfl
  rcases hmain with ⟨l, hok, hperm, hlen⟩
  rw [heq] at hperm hlen
  exact ⟨l, hok, hperm, hlen⟩

/-- C4 (amended): with the enumeration modelled as having succeeded, the
call returns (does not raise) whenever every surviving record carries a
timezone-aware parsed `call_timestamps.start`, and the returned sequence
is empty exactly when no object survives the filter and fetch — an empty
result is a valid non-error outcome distinguishable from failure.  (As
originally stated the claim is false: an individual object can make the
call raise, see the counterexample.) -/
theorem C4_empty_is_valid_result :
    ∀ (store : List Blob) (s e : Option PyDT),
      (∀ r ∈ store.filterMap
          (processBlob (normalizeStart s) (normalizeEnd e)),
        ∃ p o, r.callStart = .value p ∧ p.tz = some o) →
      ∃ l, fetch_call_logs store s e = .ok l ∧
        (l = [] ↔ store.filterMap
          (processBlob (normalizeStart s) (normalizeEnd e)) = []) := by
  intro store s e hgood
  have haware : ∀ r ∈ store.filterMap
      (processBlob (normalizeStart s) (normalizeEnd e)),
      keyIsAware r = true := by
    intro r hr
    rcases hgood r hr with ⟨p, o, hc, ht⟩
    exact aware_of_value_tz hc ht
  refine ⟨sortDesc recKey (store.filterMap
      (processBlob (normalizeStart s) (normalizeEnd e))), ?_, ?_⟩
  · unfold fetch_call_logs
    exact sortCallLogs_ok_of_all_aware haware
  · exact sortDesc_eq_nil_iff recKey _

/-- Counterexample to C4 as stated: the enumeration succeeds and yields
a single object whose content decodes but whose `call_timestamps.start`
is not an ISO-8601 instant; the claim says the call never raises because
of an individual object, yet the code raises. -/
theorem C4_counterexample :
    fetch_call_logs
      [⟨"2024-01-05/09_00_00_+15550000007.json",
        some ⟨StartField.malformed, 7, none⟩⟩] none none
      = Except.error () := by rfl

/-- Witness for C4 (amended): a window matching nothing returns the
empty sequence as a non-error result. -/
theorem C4_witness :
    ∃ l, fetch_call_logs [sampleBlob1]
        (some ⟨⟨2025, 1, 1, 0, 0, 0, 0⟩, none⟩) none = Except.ok l ∧
      l = [] := by
  have heq : [sampleBlob1].filterMap
      (processBlob (normalizeStart (some ⟨⟨2025, 1, 1, 0, 0, 0, 0⟩, none⟩))
        (normalizeEnd none)) = [] := by rfl
  rcases C4_empty_is_valid_result [sampleBlob1]
      (some ⟨⟨2025, 1, 1, 0, 0, 0, 0⟩, none⟩) none
      (by
        intro r hr
        rw [heq] at hr
        cases hr) with ⟨l, hok, hiff⟩
  exact ⟨l, hok, hiff.2 heq⟩

/-- Witness for C2: with the date-only window 2024-01-01 .. 2024-01-01,
the blob named `2024-01-01/10_00_00_+15550000001.json` is inside the
widened inclusive window and yields a record. -/
theorem C2_witness :
    (processBlob (normalizeStart (some ⟨⟨2024, 1, 1, 0, 0, 0, 0⟩, none⟩))
        (normalizeEnd (some ⟨⟨2024, 1, 1, 0, 0, 0, 0⟩, none⟩))
        sampleBlob1).isSome = true ∧
    specWindowIncluded (some ⟨⟨2024, 1, 1, 0, 0, 0, 0⟩, none⟩)
        (some ⟨⟨2024, 1, 1, 0, 0, 0, 0⟩, none⟩)
        ⟨⟨2024, 1, 1, 10, 0, 0, 0⟩, some IST_TIMEZONE_utcoffset⟩ = true := by
  have h := C2_window_filter.2 (some ⟨⟨2024, 1, 1, 0, 0, 0, 0⟩, none⟩)
    (some ⟨⟨2024, 1, 1, 0, 0, 0, 0⟩, none⟩) sampleBlob1
    ⟨2024, 1, 1, 10, 0, 0, 0⟩ (by rfl)
  exact ⟨h.2 ⟨by decide, by rfl⟩, by decide⟩
